import Mathlib

/-!
Verification of the AutoScape budget estimation core
(src/budget_calculator.py, src/pricing_data.py, and the duplicated parser in
src/servers/budget_calculator_rag.py).

Modelling conventions, stated once:
* Python strings are modelled as `List Char` (the table and all inputs of
  interest are ASCII).
* Python floats are modelled as `ℚ`.  Every numeric value reached by the
  claims is a small decimal that IEEE doubles represent exactly, and the
  operations used on them (parsing, multiplication by a quantity, summation)
  are exact there, so the rational model is faithful on the domain the claims
  quantify over.
* `dict` iteration order is insertion order in Python 3.7+; the pricing table
  is therefore an association list in the literal order of the source file.
* A Python expression that can raise (the `list(...)[0]` fallback indexing in
  calculate_budget) is modelled in `Option`; `none` models an uncaught
  exception escaping the function.
* `float(...)` is modelled by `pyFloat`: optional surrounding whitespace,
  optional sign, decimal digits with an optional fraction part after one dot,
  optional decimal exponent.  Exotic float syntax (inf, nan, underscore
  separators) is not modelled; no string built from the pricing table or from
  the claims uses it, and each claim touching a failing parse needs only that
  the model fails where the code fails.
* The running totals `total_low += ...` / `total_high += ...` of the Python
  loop are modelled by a structural recursion that adds each line from the
  left; over `ℚ` the two groupings of the sum are equal.
-/

/-- One decimal digit to its numeric value. -/
def digVal (c : Char) : Nat := c.toNat - '0'.toNat

/-- Value of a big-endian digit string, accumulated the way Python float
parsing reads it. -/
def digitsVal (l : List Char) : Nat := l.foldl (fun n c => 10 * n + digVal c) 0

/-- ASCII lower-casing of one character, as Python str.lower acts on the
ASCII strings this program handles. -/
def pyLower (c : Char) : Char :=
  if 'A' ≤ c ∧ c ≤ 'Z' then Char.ofNat (c.toNat + 32) else c

/-- Python str.lower on the modelled strings. -/
def lowerStr (l : List Char) : List Char := l.map pyLower

/-- Python str.strip: drop whitespace from both ends. -/
def pyStrip (l : List Char) : List Char :=
  ((l.dropWhile Char.isWhitespace).reverse.dropWhile Char.isWhitespace).reverse

/-- Exponent part of a Python float literal: optional sign, then digits,
consumed entirely. -/
def parseExp (l : List Char) : Option Int :=
  if l.head? = some '+' then
    if l.tail ≠ [] ∧ l.tail.all Char.isDigit then some (digitsVal l.tail) else none
  else if l.head? = some '-' then
    if l.tail ≠ [] ∧ l.tail.all Char.isDigit then some (-(digitsVal l.tail : Int)) else none
  else
    if l ≠ [] ∧ l.all Char.isDigit then some (digitsVal l) else none

/-- Mantissa value followed by an optional exponent, consumed entirely. -/
def coreAfterFrac (m : ℚ) : List Char → Option ℚ
  | [] => some m
  | 'e' :: r4 => (parseExp r4).map fun k => m * (10 : ℚ) ^ k
  | 'E' :: r4 => (parseExp r4).map fun k => m * (10 : ℚ) ^ k
  | _ => none

/-- Integer digits already taken; the rest of a Python float literal: an
optional fraction after one dot, an optional exponent, consumed entirely. -/
def coreAfterDigits (ip : List Char) : List Char → Option ℚ
  | [] => if ip.isEmpty then none else some (digitsVal ip : ℚ)
  | '.' :: r2 =>
    if ip.isEmpty && (r2.takeWhile Char.isDigit).isEmpty then none
    else
      coreAfterFrac
        ((digitsVal (ip ++ r2.takeWhile Char.isDigit) : ℚ) /
          (10 : ℚ) ^ (r2.takeWhile Char.isDigit).length)
        (r2.drop (r2.takeWhile Char.isDigit).length)
  | 'e' :: r4 =>
    if ip.isEmpty then none
    else (parseExp r4).map fun k => (digitsVal ip : ℚ) * (10 : ℚ) ^ k
  | 'E' :: r4 =>
    if ip.isEmpty then none
    else (parseExp r4).map fun k => (digitsVal ip : ℚ) * (10 : ℚ) ^ k
  | _ => none

/-- Unsigned body of a Python float literal. -/
def pyFloatCore (l : List Char) : Option ℚ :=
  coreAfterDigits (l.takeWhile Char.isDigit) (l.drop (l.takeWhile Char.isDigit).length)

/-- Python float(s): strip whitespace, optional sign, then the literal body. -/
def pyFloat (l : List Char) : Option ℚ :=
  if (pyStrip l).head? = some '+' then pyFloatCore (pyStrip l).tail
  else if (pyStrip l).head? = some '-' then (pyFloatCore (pyStrip l).tail).map Neg.neg
  else pyFloatCore (pyStrip l)

/-- Python s.split at a one-character separator, here the hyphen:
n hyphens give n + 1 parts. -/
def splitHyphen : List Char → List (List Char)
  | [] => [[]]
  | c :: r =>
    if c = '-' then [] :: splitHyphen r
    else
      match splitHyphen r with
      | [] => [[c]]
      | p :: ps => (c :: p) :: ps

/-- The cleanup step of parse_price_range: price_str.replace of each of the
two characters with the empty string, which deletes every occurrence. -/
def cleanPrice (l : List Char) : List Char :=
  l.filter fun c => !(c = '$' || c = ',')

/-- The two-part branch of parse_price_range: both floats must parse. -/
def pairOrZero : Option ℚ → Option ℚ → ℚ × ℚ
  | some low, some high => (low, high)
  | _, _ => (0, 0)

/-- The one-part branch of parse_price_range: a single value, low equal to
high, zero on parse failure. -/
def singleOrZero : Option ℚ → ℚ × ℚ
  | some v => (v, v)
  | none => (0, 0)

/-- Dispatch of parse_price_range on the number of split parts.  The one-part
branch keeps only digits and dots before parsing (the re.sub of the source);
any other number of parts yields (0, 0). -/
def priceFromParts : List (List Char) → ℚ × ℚ
  | [a, b] => pairOrZero (pyFloat (pyStrip a)) (pyFloat (pyStrip b))
  | [a] => singleOrZero (pyFloat (a.filter fun c => c.isDigit || c = '.'))
  | _ => (0, 0)

/-- src/budget_calculator.py lines 10-31, parse_price_range: clean the
string, split on the hyphen, and dispatch on the number of parts. -/
def parse_price_range (l : List Char) : ℚ × ℚ :=
  priceFromParts (splitHyphen (cleanPrice l))

/-- src/servers/budget_calculator_rag.py lines 76-95: the second, duplicated
copy of the parser, transcribed from that file; its body is line for line the
body of the copy in src/budget_calculator.py. -/
def parse_price_range_rag (l : List Char) : ℚ × ℚ :=
  priceFromParts (splitHyphen (cleanPrice l))

/-- src/pricing_data.py lines 6-77: PRICING_DATABASE, an association list in
the literal order of the source file (dict insertion order). -/
def PRICING_DATABASE : List (List Char × List (List Char × List Char)) := [
  ("tree".toList, [
    ("15-gallon".toList, "$80 - $150".toList),
    ("24-inch box".toList, "$250 - $500".toList),
    ("mature".toList, "$800+".toList)]),
  ("shrub".toList, [
    ("1-gallon".toList, "$10 - $20".toList),
    ("5-gallon".toList, "$30 - $55".toList)]),
  ("bush".toList, [
    ("1-gallon".toList, "$10 - $20".toList),
    ("5-gallon".toList, "$30 - $55".toList)]),
  ("grass".toList, [
    ("1-gallon".toList, "$8 - $15".toList),
    ("plug".toList, "$2 - $5".toList)]),
  ("palm".toList, [
    ("15-gallon".toList, "$100 - $200".toList),
    ("mature (per foot of trunk)".toList, "$100 - $300".toList)]),
  ("bamboo".toList, [
    ("5-gallon".toList, "$40 - $80".toList),
    ("15-gallon".toList, "$120 - $200".toList)]),
  ("hedge".toList, [
    ("5-gallon".toList, "$35 - $60".toList),
    ("per linear foot (installed)".toList, "$40 - $100".toList)]),
  ("flower".toList, [
    ("4-inch pot".toList, "$3 - $6".toList),
    ("1-gallon".toList, "$10 - $15".toList)]),
  ("perennial".toList, [
    ("1-gallon".toList, "$12 - $18".toList)]),
  ("topiary".toList, [
    ("shaped 5-gallon".toList, "$60 - $120".toList),
    ("mature shaped".toList, "$300+".toList)]),
  ("paver".toList, [
    ("concrete (per sq ft)".toList, "$5 - $10".toList),
    ("brick (per sq ft)".toList, "$8 - $15".toList),
    ("stone (per sq ft)".toList, "$15 - $30".toList)]),
  ("gravel".toList, [
    ("pea gravel (per cubic yard)".toList, "$40 - $60".toList),
    ("decorative rock (per ton)".toList, "$100 - $300".toList),
    ("bag (0.5 cu ft)".toList, "$5 - $10".toList)]),
  ("stone".toList, [
    ("flagstone (per ton)".toList, "$300 - $600".toList),
    ("boulder (each)".toList, "$100 - $500".toList)]),
  ("mulch".toList, [
    ("bulk (per cubic yard)".toList, "$30 - $50".toList),
    ("bag (2 cu ft)".toList, "$4 - $8".toList)]),
  ("edging".toList, [
    ("plastic (per ft)".toList, "$1 - $3".toList),
    ("metal (per ft)".toList, "$3 - $8".toList),
    ("stone (per ft)".toList, "$5 - $15".toList)]),
  ("retaining wall".toList, [
    ("block (per sq ft face)".toList, "$15 - $25".toList),
    ("natural stone (per sq ft face)".toList, "$30 - $60".toList)])]

/-- One input record of calculate_budget: a dict whose four known keys may
each be absent.  Quantities are numbers (see the float convention above). -/
structure RequestedItem where
  name : Option (List Char) := none
  category : Option (List Char) := none
  size : Option (List Char) := none
  quantity : Option ℚ := none
deriving DecidableEq

/-- One entry of the returned breakdown list. -/
structure LineItem where
  item : List Char
  quantity : ℚ
  unit_price : List Char
  total_estimate : List Char
deriving DecidableEq

/-- The dict returned by calculate_budget. -/
structure BudgetResult where
  total_low : ℚ
  total_high : ℚ
  breakdown : List LineItem
deriving DecidableEq

/-- src/budget_calculator.py line 48: item.get of the name with its default. -/
def itemName (it : RequestedItem) : List Char := it.name.getD "Unknown Item".toList

/-- src/budget_calculator.py line 49: the category default, lower-cased at
the assignment. -/
def itemCategory (it : RequestedItem) : List Char :=
  lowerStr (it.category.getD "plant".toList)

/-- src/budget_calculator.py line 50: the size default; the size is never
lower-cased by the source. -/
def itemSize (it : RequestedItem) : List Char := it.size.getD "1-gallon".toList

/-- src/budget_calculator.py line 51: the quantity default. -/
def itemQuantity (it : RequestedItem) : ℚ := it.quantity.getD 1

/-- The Python membership test of one string inside another: contiguous
substring containment. -/
def pyIn (p : List Char) : List Char → Bool
  | [] => p.isEmpty
  | c :: r => p.isPrefixOf (c :: r) || pyIn p r

/-- src/budget_calculator.py lines 57-61: the category scan condition of one
table entry against one item. -/
def catPred (it : RequestedItem) (p : List Char × List (List Char × List Char)) : Bool :=
  pyIn p.1 (itemCategory it) || pyIn p.1 (lowerStr (itemName it))

/-- Outcome of the size scan: a found entry gives its price; otherwise fall
back to the first size entry, whose indexing raises on an empty category. -/
def sizeFound : Option (List Char × List Char) → List (List Char × List Char) →
    Option (List Char)
  | some kv, _ => some kv.2
  | none, size_prices => size_prices.head?.map Prod.snd

/-- src/budget_calculator.py lines 64-77: size scan over the matched
category, with the fall-back to the first size entry. -/
def sizeLookup (size_prices : List (List Char × List Char)) (size : List Char) :
    Option (List Char) :=
  sizeFound (size_prices.find? fun p => pyIn p.1 size) size_prices

/-- Outcome of the category scan: no match keeps the "$0 - $0" default,
a match proceeds to the size scan. -/
def catFound : Option (List Char × List (List Char × List Char)) → List Char →
    Option (List Char)
  | none, _ => some "$0 - $0".toList
  | some kv, size => sizeLookup kv.2 size

/-- src/budget_calculator.py lines 53-77: the unit price string of one item,
"$0 - $0" when no category key matches. -/
def resolve_price (it : RequestedItem) : Option (List Char) :=
  catFound (PRICING_DATABASE.find? (catPred it)) (itemSize it)

/-- Digit list of a natural number, least significant first. -/
def natDigitsRev (m : Nat) : List Char := (Nat.toDigits 10 m).reverse

/-- Thousands grouping over a least-significant-first digit list. -/
def group3 : List Char → List Char
  | a :: b :: c :: d :: rest => a :: b :: c :: ',' :: group3 (d :: rest)
  | l => l

/-- Fixed two-decimal rendering of a whole number of cents, with the
thousands separator of the Python format spec. -/
def formatCents (n : Int) : List Char :=
  (if n < 0 then ['-'] else []) ++
    (group3 (natDigitsRev (n.natAbs / 100))).reverse ++
    ['.', Nat.digitChar (n.natAbs % 100 / 10), Nat.digitChar (n.natAbs % 10)]

/-- The cents value rendered by the Python format f-string; ties are modelled
as rounding up, a convention that agrees with the format on every value the
program is evaluated at in this development (all exact cent amounts). -/
def centsOf (q : ℚ) : Int := ⌊q * 100 + 1 / 2⌋

/-- Python f-string piece f-dollar-value with format spec ,.2f. -/
def formatFixed2 (q : ℚ) : List Char := formatCents (centsOf q)

/-- src/budget_calculator.py lines 80-93: from the resolved unit price
string, the low and high contributions of the item and its breakdown entry. -/
def mkLine (it : RequestedItem) (price_range_str : List Char) : ℚ × ℚ × LineItem :=
  ((parse_price_range price_range_str).1 * itemQuantity it,
   (parse_price_range price_range_str).2 * itemQuantity it,
   { item := itemName it
     quantity := itemQuantity it
     unit_price := price_range_str
     total_estimate :=
       '$' :: formatFixed2 ((parse_price_range price_range_str).1 * itemQuantity it) ++
         ' ' :: '-' :: ' ' :: '$' ::
           formatFixed2 ((parse_price_range price_range_str).2 * itemQuantity it) })

/-- src/budget_calculator.py lines 47-93, one iteration of the loop. -/
def processItem (it : RequestedItem) : Option (ℚ × ℚ × LineItem) :=
  (resolve_price it).map (mkLine it)

/-- Accumulation step of the loop: a raised exception in the line propagates;
otherwise the contributions are added and the breakdown entry appended. -/
def combineLine : Option (ℚ × ℚ × LineItem) → Option BudgetResult → Option BudgetResult
  | some (lo, hi, li), some r =>
    some ⟨lo + r.total_low, hi + r.total_high, li :: r.breakdown⟩
  | _, _ => none

/-- src/budget_calculator.py lines 33-99, calculate_budget: run the loop over
the items, accumulating the totals and the breakdown in input order. -/
def calculate_budget : List RequestedItem → Option BudgetResult
  | [] => some ⟨0, 0, []⟩
  | it :: rest => combineLine (processItem it) (calculate_budget rest)

/-- The reference input list of the spec and of the demo block of
src/budget_calculator.py lines 103-107. -/
def demoItems : List RequestedItem :=
  [⟨some "Japanese Maple".toList, some "tree".toList, some "15-gallon".toList, some 2⟩,
   ⟨some "Lavender".toList, some "shrub".toList, some "1-gallon".toList, some 10⟩,
   ⟨some "Pea Gravel".toList, some "gravel".toList, some "pea gravel".toList, some 5⟩]

/-- The budget the reference input is claimed to produce. -/
def demoResult : BudgetResult :=
  ⟨460, 800,
   [⟨"Japanese Maple".toList, 2, "$80 - $150".toList, "$160.00 - $300.00".toList⟩,
    ⟨"Lavender".toList, 10, "$10 - $20".toList, "$100.00 - $200.00".toList⟩,
    ⟨"Pea Gravel".toList, 5, "$40 - $60".toList, "$200.00 - $300.00".toList⟩]⟩

/-- The all-defaults item: the Python dict with no keys. -/
def emptyItem : RequestedItem := ⟨none, none, none, none⟩

/-! ### Helper lemmas about the string primitives -/

theorem dropWhile_eq_self_of_all {p : Char → Bool} {l : List Char}
    (h : ∀ c ∈ l, p c = false) : l.dropWhile p = l := by
  cases l with
  | nil => rfl
  | cons c r => simp [List.dropWhile_cons, h c (by simp)]

theorem takeWhile_eq_self_of_all {p : Char → Bool} {l : List Char}
    (h : ∀ c ∈ l, p c = true) : l.takeWhile p = l := by
  induction l with
  | nil => rfl
  | cons c r ih =>
    simp [List.takeWhile_cons, h c (by simp), ih fun x hx => h x (by simp [hx])]

theorem pyStrip_eq_self {l : List Char} (h : ∀ c ∈ l, c.isWhitespace = false) :
    pyStrip l = l := by
  rw [pyStrip, dropWhile_eq_self_of_all h,
    dropWhile_eq_self_of_all (fun c hc => h c (List.mem_reverse.mp hc)),
    List.reverse_reverse]

theorem pyStrip_append_space {l : List Char} (h : ∀ c ∈ l, c.isWhitespace = false) :
    pyStrip (l ++ [' ']) = l := by
  cases l with
  | nil => rfl
  | cons c r =>
    rw [pyStrip, List.cons_append, List.dropWhile_cons]
    rw [h c (by simp)]
    simp only [Bool.false_eq_true, if_false]
    rw [show (c :: (r ++ [' '])).reverse = ' ' :: (c :: r).reverse by
      simp [List.reverse_cons, List.reverse_append]]
    rw [List.dropWhile_cons]
    simp only [show (' ' : Char).isWhitespace = true from rfl, if_true]
    rw [dropWhile_eq_self_of_all (fun x hx => h x (List.mem_reverse.mp hx)),
      List.reverse_reverse]

theorem pyStrip_cons_space (l : List Char) : pyStrip (' ' :: l) = pyStrip l := by
  rw [pyStrip, pyStrip, List.dropWhile_cons]
  simp only [show (' ' : Char).isWhitespace = true from rfl, if_true]

theorem splitHyphen_ne_nil (l : List Char) : splitHyphen l ≠ [] := by
  cases l with
  | nil => simp [splitHyphen]
  | cons c r =>
    rw [splitHyphen]
    by_cases hc : c = '-'
    · simp [hc]
    · simp only [if_neg hc]
      cases splitHyphen r <;> simp

theorem splitHyphen_no_hyphen {l : List Char} (h : ∀ c ∈ l, c ≠ '-') :
    splitHyphen l = [l] := by
  induction l with
  | nil => rfl
  | cons c r ih =>
    rw [splitHyphen, if_neg (h c (by simp)), ih fun x hx => h x (by simp [hx])]

theorem splitHyphen_append {xs ys : List Char} (h : ∀ c ∈ xs, c ≠ '-') :
    splitHyphen (xs ++ '-' :: ys) = xs :: splitHyphen ys := by
  induction xs with
  | nil => simp [splitHyphen]
  | cons x xs ih =>
    rw [List.cons_append, splitHyphen, if_neg (h x (by simp)),
      ih fun c hc => h c (by simp [hc])]

theorem splitHyphen_length (l : List Char) :
    (splitHyphen l).length = l.count '-' + 1 := by
  induction l with
  | nil => rfl
  | cons c r ih =>
    by_cases hc : c = '-'
    · subst hc
      rw [splitHyphen, if_pos rfl]
      simp [List.count_cons, ih]
    · rw [splitHyphen, if_neg hc]
      rcases hsr : splitHyphen r with _ | ⟨p, ps⟩
      · exact absurd hsr (splitHyphen_ne_nil r)
      · rw [hsr] at ih
        simp only [List.length_cons] at ih ⊢
        simp [List.count_cons, hc, ← ih]

theorem find?_first {α : Type} {p : α → Bool} {pre post : List α} {y : α}
    (hpre : ∀ x ∈ pre, p x = false) (hy : p y = true) :
    List.find? p (pre ++ y :: post) = some y := by
  induction pre with
  | nil => simp [List.find?_cons, hy]
  | cons a l ih =>
    have ha : ¬p a = true := by simp [hpre a (by simp)]
    rw [List.cons_append, List.find?_cons_of_neg _ ha]
    exact ih fun x hx => hpre x (by simp [hx])

theorem head?_mem {α : Type} {l : List α} {x : α} (h : l.head? = some x) : x ∈ l := by
  cases l with
  | nil => simp at h
  | cons a r =>
    simp only [List.head?_cons, Option.some.injEq] at h
    rw [← h]
    exact List.mem_cons_self a r

theorem head?_ne_of_all {l : List Char} {p : Char → Bool} {d : Char}
    (h : ∀ c ∈ l, p c = true) (hd : p d = false) : l.head? ≠ some d := by
  intro hcontra
  have hmem := h d (head?_mem hcontra)
  rw [hd] at hmem
  exact Bool.false_ne_true hmem

/-! ### Character classification helpers -/

theorem ne_of_digit_of_not {c d : Char} (h : c.isDigit = true)
    (hd : d.isDigit = false) : c ≠ d := by
  intro e
  subst e
  rw [h] at hd
  cases hd

theorem not_ws_of_digit {c : Char} (h : c.isDigit = true) :
    c.isWhitespace = false := by
  have h32 : c ≠ ' ' := ne_of_digit_of_not h (by decide)
  have h9 : c ≠ '\t' := ne_of_digit_of_not h (by decide)
  have h13 : c ≠ '\r' := ne_of_digit_of_not h (by decide)
  have h10 : c ≠ '\n' := ne_of_digit_of_not h (by decide)
  simp [Char.isWhitespace, h32, h9, h13, h10]

theorem not_ws_of_digit_dot {c : Char} (h : (c.isDigit || c = '.') = true) :
    c.isWhitespace = false := by
  rcases Bool.or_eq_true_iff.mp h with hd | he
  · exact not_ws_of_digit hd
  · rw [of_decide_eq_true he]
    rfl

theorem ne_hyphen_of_digit_dot {c : Char} (h : (c.isDigit || c = '.') = true) :
    c ≠ '-' := by
  rcases Bool.or_eq_true_iff.mp h with hd | he
  · exact ne_of_digit_of_not hd (by decide)
  · rw [of_decide_eq_true he]
    decide

/-! ### Evaluation lemmas for the float parser -/

theorem pyFloatCore_digits {l : List Char} (h1 : l ≠ [])
    (h2 : ∀ c ∈ l, c.isDigit = true) :
    pyFloatCore l = some (digitsVal l : ℚ) := by
  rw [pyFloatCore, takeWhile_eq_self_of_all h2, List.drop_length]
  cases l with
  | nil => exact absurd rfl h1
  | cons c r => rfl

theorem pyFloat_eq_core {l : List Char} (hws : ∀ c ∈ l, c.isWhitespace = false)
    (h1 : l.head? ≠ some '+') (h2 : l.head? ≠ some '-') :
    pyFloat l = pyFloatCore l := by
  rw [pyFloat, pyStrip_eq_self hws, if_neg h1, if_neg h2]

/-- The parser on the f-string shape produced for a money range: the dollar
signs and commas are deleted, exactly one hyphen remains, and the two sides
are parsed by the unsigned float body after stripping the padding spaces. -/
theorem parse_price_range_concat (s A B : List Char)
    (hs : s = '$' :: (A ++ ' ' :: '-' :: ' ' :: '$' :: B))
    (hA : ∀ c ∈ A, c.isDigit = true ∨ c = ',' ∨ c = '.')
    (hB : ∀ c ∈ B, c.isDigit = true ∨ c = ',' ∨ c = '.')
    (a b : ℚ)
    (ha : pyFloatCore (cleanPrice A) = some a)
    (hb : pyFloatCore (cleanPrice B) = some b) :
    parse_price_range s = (a, b) := by
  subst hs
  have hAc : ∀ c ∈ cleanPrice A, c.isDigit = true ∨ c = '.' := by
    intro c hc
    rcases List.mem_filter.mp hc with ⟨hcA, hkeep⟩
    rcases hA c hcA with hd | hcomma | hdot
    · exact Or.inl hd
    · subst hcomma
      simp at hkeep
    · exact Or.inr hdot
  have hBc : ∀ c ∈ cleanPrice B, c.isDigit = true ∨ c = '.' := by
    intro c hc
    rcases List.mem_filter.mp hc with ⟨hcB, hkeep⟩
    rcases hB c hcB with hd | hcomma | hdot
    · exact Or.inl hd
    · subst hcomma
      simp at hkeep
    · exact Or.inr hdot
  have hAnws : ∀ c ∈ cleanPrice A, c.isWhitespace = false := by
    intro c hc
    rcases hAc c hc with hd | he
    · exact not_ws_of_digit hd
    · subst he; rfl
  have hBnws : ∀ c ∈ cleanPrice B, c.isWhitespace = false := by
    intro c hc
    rcases hBc c hc with hd | he
    · exact not_ws_of_digit hd
    · subst he; rfl
  have hAnh : ∀ c ∈ cleanPrice A, c ≠ '-' := by
    intro c hc
    rcases hAc c hc with hd | he
    · exact ne_of_digit_of_not hd (by decide)
    · subst he; decide
  have hBnh : ∀ c ∈ cleanPrice B, c ≠ '-' := by
    intro c hc
    rcases hBc c hc with hd | he
    · exact ne_of_digit_of_not hd (by decide)
    · subst he; decide
  have hAcB : ∀ c ∈ cleanPrice A, (c.isDigit || c = '.') = true := by
    intro c hc
    rcases hAc c hc with hd | he
    · simp [hd]
    · simp [he]
  have hBcB : ∀ c ∈ cleanPrice B, (c.isDigit || c = '.') = true := by
    intro c hc
    rcases hBc c hc with hd | he
    · simp [hd]
    · simp [he]
  have hclean : cleanPrice ('$' :: (A ++ ' ' :: '-' :: ' ' :: '$' :: B)) =
      cleanPrice A ++ ' ' :: '-' :: ' ' :: cleanPrice B := by
    simp [cleanPrice, List.filter_append, List.filter_cons]
  have hxs : ∀ c ∈ cleanPrice A ++ [' '], c ≠ '-' := by
    intro c hc
    rcases List.mem_append.mp hc with h1 | h2
    · exact hAnh c h1
    · simp at h2
      subst h2
      decide
  have hys : ∀ c ∈ ' ' :: cleanPrice B, c ≠ '-' := by
    intro c hc
    rcases List.mem_cons.mp hc with h1 | h2
    · subst h1; decide
    · exact hBnh c h2
  rw [parse_price_range, hclean]
  rw [show cleanPrice A ++ ' ' :: '-' :: ' ' :: cleanPrice B =
      (cleanPrice A ++ [' ']) ++ '-' :: (' ' :: cleanPrice B) by simp]
  rw [splitHyphen_append hxs, splitHyphen_no_hyphen hys]
  rw [priceFromParts]
  rw [pyStrip_append_space hAnws, pyStrip_cons_space, pyStrip_eq_self hBnws]
  rw [pyFloat_eq_core hAnws (head?_ne_of_all hAcB (by decide))
      (head?_ne_of_all hAcB (by decide)),
    pyFloat_eq_core hBnws (head?_ne_of_all hBcB (by decide))
      (head?_ne_of_all hBcB (by decide)),
    ha, hb]
  rfl

/-! ### Evaluation lemmas for the budget pipeline -/

theorem centsOf_eq (q : ℚ) (n : Int) (h1 : (n : ℚ) ≤ q * 100 + 1 / 2)
    (h2 : q * 100 + 1 / 2 < (n : ℚ) + 1) : centsOf q = n := by
  rw [centsOf]
  exact Int.floor_eq_iff.mpr ⟨h1, h2⟩

theorem processItem_eval (it : RequestedItem) (ps : List Char)
    (lo hi q plo phi : ℚ) (cl ch : Int)
    (hres : resolve_price it = some ps)
    (hparse : parse_price_range ps = (lo, hi))
    (hq : itemQuantity it = q)
    (hlo : lo * q = plo) (hhi : hi * q = phi)
    (hcl : centsOf plo = cl) (hch : centsOf phi = ch) :
    processItem it = some (plo, phi,
      ⟨itemName it, q, ps,
        '$' :: formatCents cl ++ ' ' :: '-' :: ' ' :: '$' :: formatCents ch⟩) := by
  rw [processItem, hres, Option.map_some', mkLine, hparse]
  simp only [hq, hlo, hhi, formatFixed2, hcl, hch]

theorem calculate_budget_nil : calculate_budget [] = some ⟨0, 0, []⟩ := rfl

theorem calculate_budget_cons (it : RequestedItem) (rest : List RequestedItem)
    (lo hi : ℚ) (li : LineItem) (r : BudgetResult)
    (h1 : processItem it = some (lo, hi, li)) (h2 : calculate_budget rest = some r) :
    calculate_budget (it :: rest) =
      some ⟨lo + r.total_low, hi + r.total_high, li :: r.breakdown⟩ := by
  rw [calculate_budget, h1, h2]
  rfl

theorem processItem_demo1 :
    processItem ⟨some "Japanese Maple".toList, some "tree".toList,
        some "15-gallon".toList, some 2⟩ =
      some (160, 300, ⟨"Japanese Maple".toList, 2, "$80 - $150".toList,
        "$160.00 - $300.00".toList⟩) := by
  have h := processItem_eval ⟨some "Japanese Maple".toList, some "tree".toList,
      some "15-gallon".toList, some 2⟩ "$80 - $150".toList 80 150 2 160 300 16000 30000
    (by decide) (by decide) (by decide) (by norm_num) (by norm_num)
    (centsOf_eq _ _ (by norm_num) (by norm_num))
    (centsOf_eq _ _ (by norm_num) (by norm_num))
  rw [h]
  decide

theorem processItem_demo2 :
    processItem ⟨some "Lavender".toList, some "shrub".toList,
        some "1-gallon".toList, some 10⟩ =
      some (100, 200, ⟨"Lavender".toList, 10, "$10 - $20".toList,
        "$100.00 - $200.00".toList⟩) := by
  have h := processItem_eval ⟨some "Lavender".toList, some "shrub".toList,
      some "1-gallon".toList, some 10⟩ "$10 - $20".toList 10 20 10 100 200 10000 20000
    (by decide) (by decide) (by decide) (by norm_num) (by norm_num)
    (centsOf_eq _ _ (by norm_num) (by norm_num))
    (centsOf_eq _ _ (by norm_num) (by norm_num))
  rw [h]
  decide

theorem processItem_demo3 :
    processItem ⟨some "Pea Gravel".toList, some "gravel".toList,
        some "pea gravel".toList, some 5⟩ =
      some (200, 300, ⟨"Pea Gravel".toList, 5, "$40 - $60".toList,
        "$200.00 - $300.00".toList⟩) := by
  have h := processItem_eval ⟨some "Pea Gravel".toList, some "gravel".toList,
      some "pea gravel".toList, some 5⟩ "$40 - $60".toList 40 60 5 200 300 20000 30000
    (by decide) (by decide) (by decide) (by norm_num) (by norm_num)
    (centsOf_eq _ _ (by norm_num) (by norm_num))
    (centsOf_eq _ _ (by norm_num) (by norm_num))
  rw [h]
  decide

theorem demo_eval : calculate_budget demoItems = some demoResult := by
  rw [demoItems,
    calculate_budget_cons _ _ _ _ _ _ processItem_demo1
      (calculate_budget_cons _ _ _ _ _ _ processItem_demo2
        (calculate_budget_cons _ _ _ _ _ _ processItem_demo3 calculate_budget_nil))]
  simp only [demoResult, Option.some.injEq, BudgetResult.mk.injEq]
  norm_num

/-! ### Soundness of the price resolution against the table -/

theorem table_sizes_nonempty : ∀ kv ∈ PRICING_DATABASE, kv.2 ≠ [] := by decide

theorem table_price_le : ∀ kv ∈ PRICING_DATABASE, ∀ sv ∈ kv.2,
    (parse_price_range sv.2).1 ≤ (parse_price_range sv.2).2 := by decide

theorem sizeLookup_mem {sp : List (List Char × List Char)} {size ps : List Char}
    (h : sizeLookup sp size = some ps) : ∃ sv ∈ sp, ps = sv.2 := by
  rw [sizeLookup] at h
  rcases hf : sp.find? (fun p => pyIn p.1 size) with _ | kv
  · rw [hf, sizeFound] at h
    rcases hh : sp.head? with _ | kv0
    · rw [hh] at h
      cases h
    · rw [hh] at h
      refine ⟨kv0, head?_mem hh, ?_⟩
      simp only [Option.map_some', Option.some.injEq] at h
      exact h.symm
  · rw [hf, sizeFound] at h
    refine ⟨kv, List.mem_of_find?_eq_some hf, ?_⟩
    simp only [Option.some.injEq] at h
    exact h.symm

theorem resolve_price_mem {it : RequestedItem} {ps : List Char}
    (h : resolve_price it = some ps) :
    ps = "$0 - $0".toList ∨
      ∃ kv ∈ PRICING_DATABASE, ∃ sv ∈ kv.2, ps = sv.2 := by
  rw [resolve_price] at h
  rcases hf : PRICING_DATABASE.find? (catPred it) with _ | kv
  · rw [hf, catFound] at h
    simp only [Option.some.injEq] at h
    exact Or.inl h.symm
  · rw [hf, catFound] at h
    obtain ⟨sv, hsv, rfl⟩ := sizeLookup_mem h
    exact Or.inr ⟨kv, List.mem_of_find?_eq_some hf, sv, hsv, rfl⟩

theorem resolve_price_isSome (it : RequestedItem) :
    ∃ ps, resolve_price it = some ps := by
  rw [resolve_price]
  rcases hf : PRICING_DATABASE.find? (catPred it) with _ | kv
  · exact ⟨_, rfl⟩
  · rw [catFound, sizeLookup]
    rcases hfs : kv.2.find? (fun p => pyIn p.1 (itemSize it)) with _ | sv
    · rw [hfs, sizeFound]
      rcases hsp : kv.2 with _ | ⟨a, t⟩
      · exact absurd hsp (table_sizes_nonempty kv (List.mem_of_find?_eq_some hf))
      · exact ⟨a.2, rfl⟩
    · rw [hfs, sizeFound]
      exact ⟨sv.2, rfl⟩

theorem parse_resolved_le {it : RequestedItem} {ps : List Char}
    (h : resolve_price it = some ps) :
    (parse_price_range ps).1 ≤ (parse_price_range ps).2 := by
  rcases resolve_price_mem h with rfl | ⟨kv, hkv, sv, hsv, rfl⟩
  · decide
  · exact table_price_le kv hkv sv hsv

theorem processItem_le {it : RequestedItem} {lo hi : ℚ} {li : LineItem}
    (hq : 0 ≤ itemQuantity it)
    (h : processItem it = some (lo, hi, li)) : lo ≤ hi := by
  rw [processItem] at h
  rcases hres : resolve_price it with _ | ps
  · rw [hres] at h
    cases h
  · rw [hres, Option.map_some'] at h
    simp only [Option.some.injEq, mkLine, Prod.mk.injEq] at h
    obtain ⟨e1, e2, -⟩ := h
    rw [← e1, ← e2]
    exact mul_le_mul_of_nonneg_right (parse_resolved_le hres) hq

theorem calculate_budget_le {items : List RequestedItem} {r : BudgetResult}
    (hq : ∀ it ∈ items, 0 ≤ itemQuantity it)
    (hr : calculate_budget items = some r) : r.total_low ≤ r.total_high := by
  induction items generalizing r with
  | nil =>
    rw [calculate_budget_nil] at hr
    simp only [Option.some.injEq] at hr
    rw [← hr]
  | cons it rest ih =>
    rw [calculate_budget] at hr
    rcases hp : processItem it with _ | ⟨⟨lo, hi, li⟩⟩
    · rw [hp] at hr
      rcases hc : calculate_budget rest with _ | r0 <;> rw [hc] at hr <;>
        simp [combineLine] at hr
    · rcases hc : calculate_budget rest with _ | r0
      · rw [hp, hc] at hr
        simp [combineLine] at hr
      · rw [hp, hc] at hr
        simp only [combineLine, Option.some.injEq] at hr
        rw [← hr]
        exact add_le_add (processItem_le (hq it (by simp)) hp)
          (ih (fun x hx => hq x (by simp [hx])) hc)

/-! ### Structure of the computation under list surgery -/

theorem resolve_price_quantity (it : RequestedItem) (o : Option ℚ) :
    resolve_price { it with quantity := o } = resolve_price it := rfl

theorem processItem_double {it : RequestedItem} {q lo hi : ℚ} {li : LineItem}
    (hq : it.quantity = some q)
    (h : processItem it = some (lo, hi, li)) :
    ∃ li2, processItem { it with quantity := some (2 * q) } =
      some (2 * lo, 2 * hi, li2) := by
  rw [processItem] at h ⊢
  rw [resolve_price_quantity]
  rcases hres : resolve_price it with _ | ps
  · rw [hres] at h
    cases h
  · rw [hres, Option.map_some'] at h
    rw [Option.map_some']
    simp only [Option.some.injEq, mkLine, Prod.mk.injEq] at h
    obtain ⟨e1, e2, -⟩ := h
    have hq1 : itemQuantity it = q := by
      rw [itemQuantity, hq, Option.getD_some]
    have hq2 : itemQuantity { it with quantity := some (2 * q) } = 2 * q := rfl
    refine ⟨(mkLine { it with quantity := some (2 * q) } ps).2.2, congrArg some ?_⟩
    have hfst : (mkLine { it with quantity := some (2 * q) } ps).1 = 2 * lo := by
      show (parse_price_range ps).1 * itemQuantity { it with quantity := some (2 * q) } =
        2 * lo
      rw [hq2, ← e1, hq1]
      ring
    have hsnd : (mkLine { it with quantity := some (2 * q) } ps).2.1 = 2 * hi := by
      show (parse_price_range ps).2 * itemQuantity { it with quantity := some (2 * q) } =
        2 * hi
      rw [hq2, ← e2, hq1]
      ring
    calc mkLine { it with quantity := some (2 * q) } ps
        = ((mkLine { it with quantity := some (2 * q) } ps).1,
           (mkLine { it with quantity := some (2 * q) } ps).2.1,
           (mkLine { it with quantity := some (2 * q) } ps).2.2) := rfl
      _ = (2 * lo, 2 * hi, (mkLine { it with quantity := some (2 * q) } ps).2.2) := by
          rw [hfst, hsnd]

theorem calculate_budget_append (l1 l2 : List RequestedItem) :
    calculate_budget (l1 ++ l2) =
      (calculate_budget l1).bind fun r1 =>
        (calculate_budget l2).map fun r2 =>
          ⟨r1.total_low + r2.total_low, r1.total_high + r2.total_high,
            r1.breakdown ++ r2.breakdown⟩ := by
  induction l1 with
  | nil =>
    rw [List.nil_append, calculate_budget_nil]
    rcases h2 : calculate_budget l2 with _ | r2
    · simp [h2]
    · simp [h2]
  | cons it rest ih =>
    rw [List.cons_append, calculate_budget, calculate_budget, ih]
    rcases hp : processItem it with _ | ⟨⟨lo, hi, li⟩⟩
    · rcases h1 : calculate_budget rest with _ | r1 <;>
        rcases h2 : calculate_budget l2 with _ | r2 <;>
          simp [combineLine, h1, h2]
    · rcases h1 : calculate_budget rest with _ | r1 <;>
        rcases h2 : calculate_budget l2 with _ | r2 <;>
          simp [combineLine, h1, h2, add_assoc]

theorem calculate_budget_length {items : List RequestedItem} {r : BudgetResult}
    (h : calculate_budget items = some r) :
    r.breakdown.length = items.length := by
  induction items generalizing r with
  | nil =>
    rw [calculate_budget_nil] at h
    simp only [Option.some.injEq] at h
    rw [← h]
    rfl
  | cons it rest ih =>
    rw [calculate_budget] at h
    rcases hp : processItem it with _ | ⟨⟨lo, hi, li⟩⟩ <;> rw [hp] at h
    · rcases hc : calculate_budget rest with _ | r0 <;> rw [hc] at h <;>
        simp [combineLine] at h
    · rcases hc : calculate_budget rest with _ | r0 <;> rw [hc] at h
      · simp [combineLine] at h
      · simp only [combineLine, Option.some.injEq] at h
        rw [← h]
        simp [ih hc]

/-! ### Line and budget soundness used by the safety claim -/

theorem processItem_spec (it : RequestedItem) :
    ∃ x : ℚ × ℚ × LineItem, processItem it = some x ∧
      (x.2.2.unit_price = "$0 - $0".toList ∨
        ∃ kv ∈ PRICING_DATABASE, ∃ sv ∈ kv.2, x.2.2.unit_price = sv.2) := by
  obtain ⟨ps, hres⟩ := resolve_price_isSome it
  refine ⟨mkLine it ps, ?_, ?_⟩
  · rw [processItem, hres, Option.map_some']
  · have hup : (mkLine it ps).2.2.unit_price = ps := rfl
    rw [hup]
    exact resolve_price_mem hres

theorem calculate_budget_spec (items : List RequestedItem) :
    ∃ r, calculate_budget items = some r ∧
      ∀ li ∈ r.breakdown,
        li.unit_price = "$0 - $0".toList ∨
          ∃ kv ∈ PRICING_DATABASE, ∃ sv ∈ kv.2, li.unit_price = sv.2 := by
  induction items with
  | nil => exact ⟨⟨0, 0, []⟩, rfl, by simp⟩
  | cons it rest ih =>
    obtain ⟨⟨lo, hi, li⟩, hp, hline⟩ := processItem_spec it
    obtain ⟨r, hr, hbr⟩ := ih
    refine ⟨⟨lo + r.total_low, hi + r.total_high, li :: r.breakdown⟩, ?_, ?_⟩
    · rw [calculate_budget, hp, hr]
      rfl
    · intro x hx
      rcases List.mem_cons.mp hx with rfl | hx2
      · exact hline
      · exact hbr x hx2

/-! ### The claims -/

/-- C1: on the reference input list, calculate_budget returns the unit price
strings dollar 80-150, 10-20 and 40-60, line estimates dollar 160.00-300.00,
100.00-200.00 and 200.00-300.00, and totals 460 and 800, as recorded in
demoResult. -/
theorem C1_reference_budget : calculate_budget demoItems = some demoResult :=
  demo_eval

/-- C2: with the reference table (whose entries all parse with low at most
high) and nonnegative quantities, the returned totals satisfy total_low at
most total_high, and each individual line contributes low at most high. -/
theorem C2_monotonic_totals (items : List RequestedItem)
    (hq : ∀ it ∈ items, 0 ≤ itemQuantity it) (r : BudgetResult)
    (hr : calculate_budget items = some r) :
    r.total_low ≤ r.total_high ∧
      ∀ it ∈ items, ∀ lo hi li, processItem it = some (lo, hi, li) → lo ≤ hi := by
  refine ⟨calculate_budget_le hq hr, ?_⟩
  intro it hit lo hi li hp
  exact processItem_le (hq it hit) hp

/-- C2 witness: the reference run instantiates the monotonicity theorem. -/
theorem C2_witness : demoResult.total_low ≤ demoResult.total_high :=
  (C2_monotonic_totals demoItems (by decide) demoResult demo_eval).1

/-- C3 counterexample: for the item with category shrub and size 5-Gallon,
the rule claimed (first size key contained in the lower-cased size) selects
the 5-gallon entry priced dollar 30-55, but the code, which never lower-cases
the size, returns the dollar 10-20 fall-back price of the first shrub entry.
The first conjunct is the code result; the second and third exhibit the
shrub table row and the selection the claimed lower-cased rule would make;
the last records that the two price strings differ. -/
theorem C3_counterexample :
    resolve_price ⟨none, some "shrub".toList, some "5-Gallon".toList, none⟩ =
        some "$10 - $20".toList ∧
      PRICING_DATABASE.find?
          (catPred ⟨none, some "shrub".toList, some "5-Gallon".toList, none⟩) =
        some ("shrub".toList,
          [("1-gallon".toList, "$10 - $20".toList),
           ("5-gallon".toList, "$30 - $55".toList)]) ∧
      List.find?
          (fun p => pyIn p.1
            (lowerStr (itemSize ⟨none, some "shrub".toList, some "5-Gallon".toList, none⟩)))
          [("1-gallon".toList, "$10 - $20".toList),
           ("5-gallon".toList, "$30 - $55".toList)] =
        some ("5-gallon".toList, "$30 - $55".toList) ∧
      "$10 - $20".toList ≠ "$30 - $55".toList := by
  refine ⟨by decide, by decide, by decide, by decide⟩

/-- C3 amended: the size scan works on the raw size field with no case
normalization: the matched size key is the first table size key, in table
order, that is a substring of the size input exactly as given, and when no
key matches the category falls back to its first size entry; in particular
the size 5-Gallon, differing from the key 5-gallon only in case, does not
match it and takes the fall-back price. -/
theorem C3_raw_size_matching :
    (∀ (it : RequestedItem) (kv : List Char × List (List Char × List Char)),
      PRICING_DATABASE.find? (catPred it) = some kv →
      ((∀ (pre : List (List Char × List Char)) (k v : List Char)
          (post : List (List Char × List Char)),
        kv.2 = pre ++ (k, v) :: post →
        pyIn k (itemSize it) = true →
        (∀ p ∈ pre, pyIn p.1 (itemSize it) = false) →
        resolve_price it = some v) ∧
       ((∀ p ∈ kv.2, pyIn p.1 (itemSize it) = false) →
        resolve_price it = kv.2.head?.map Prod.snd))) ∧
      resolve_price ⟨none, some "shrub".toList, some "5-Gallon".toList, none⟩ =
        some "$10 - $20".toList := by
  constructor
  · intro it kv hf
    constructor
    · intro pre k v post hsp hk hpre
      rw [resolve_price, hf, catFound, sizeLookup, hsp, find?_first hpre hk, sizeFound]
    · intro hnone
      rw [resolve_price, hf, catFound, sizeLookup,
        List.find?_eq_none.mpr (fun x hx => by simp [hnone x hx]), sizeFound]
  · decide

/-- C3 witness: the raw size scan instantiated at the tree item whose size
matches its first key. -/
theorem C3_witness :
    resolve_price ⟨none, some "tree".toList, some "15-gallon".toList, none⟩ =
      some "$80 - $150".toList := by
  exact (C3_raw_size_matching.1 ⟨none, some "tree".toList, some "15-gallon".toList, none⟩
      ("tree".toList,
        [("15-gallon".toList, "$80 - $150".toList),
         ("24-inch box".toList, "$250 - $500".toList),
         ("mature".toList, "$800+".toList)]) (by decide)).1
    [] "15-gallon".toList "$80 - $150".toList
    [("24-inch box".toList, "$250 - $500".toList), ("mature".toList, "$800+".toList)]
    rfl (by decide) (by simp)

/-- C4: the parser is fail-soft: more than one hyphen after cleanup yields
(0, 0); a failing float parse in the two-part or one-part branch yields
(0, 0); and the strings garbage and empty both yield (0, 0).  Totality is
the type of parse_price_range itself. -/
theorem C4_fail_soft :
    (∀ l : List Char, 2 ≤ (cleanPrice l).count '-' → parse_price_range l = (0, 0)) ∧
      (∀ l a b, splitHyphen (cleanPrice l) = [a, b] →
        pyFloat (pyStrip a) = none ∨ pyFloat (pyStrip b) = none →
        parse_price_range l = (0, 0)) ∧
      (∀ l a, splitHyphen (cleanPrice l) = [a] →
        pyFloat (a.filter fun c => c.isDigit || c = '.') = none →
        parse_price_range l = (0, 0)) ∧
      parse_price_range "garbage".toList = (0, 0) ∧
      parse_price_range [] = (0, 0) := by
  refine ⟨?_, ?_, ?_, by decide, by decide⟩
  · intro l hcount
    rw [parse_price_range]
    rcases hs : splitHyphen (cleanPrice l) with _ | ⟨a, _ | ⟨b, _ | ⟨c, rest⟩⟩⟩
    · exact absurd hs (splitHyphen_ne_nil _)
    · exfalso
      have hl := splitHyphen_length (cleanPrice l)
      rw [hs] at hl
      simp only [List.length_cons, List.length_nil] at hl
      omega
    · exfalso
      have hl := splitHyphen_length (cleanPrice l)
      rw [hs] at hl
      simp only [List.length_cons, List.length_nil] at hl
      omega
    · rfl
  · intro l a b hs hfail
    rw [parse_price_range, hs, priceFromParts]
    rcases hfail with hfa | hfb
    · rw [hfa]
      rcases pyFloat (pyStrip b) with _ | vb <;> rfl
    · rw [hfb]
      rcases pyFloat (pyStrip a) with _ | va <;> rfl
  · intro l a hs hfail
    rw [parse_price_range, hs, priceFromParts, hfail]
    rfl

/-- C4 witness: a two-hyphen string cleans to two hyphens and parses to
(0, 0) by the fail-soft theorem. -/
theorem C4_witness : parse_price_range "$5 - $6 - $7".toList = (0, 0) :=
  C4_fail_soft.1 "$5 - $6 - $7".toList (by decide)

/-- C5: round trip: for numerals A and B over digits, commas and at most one
dot whose comma-free forms the float body accepts with values a and b, the
f-string dollar A space hyphen space dollar B parses to exactly (a, b); and
the plus-suffix single value dollar 800 plus parses to (800, 800). -/
theorem C5_round_trip :
    (∀ s A B : List Char, s = '$' :: (A ++ ' ' :: '-' :: ' ' :: '$' :: B) →
      (∀ c ∈ A, c.isDigit = true ∨ c = ',' ∨ c = '.') →
      (∀ c ∈ B, c.isDigit = true ∨ c = ',' ∨ c = '.') →
      ∀ a b : ℚ, pyFloatCore (cleanPrice A) = some a →
        pyFloatCore (cleanPrice B) = some b →
        parse_price_range s = (a, b)) ∧
      parse_price_range "$800+".toList = (800, 800) :=
  ⟨fun s A B hs hA hB a b ha hb => parse_price_range_concat s A B hs hA hB a b ha hb,
   by decide⟩

/-- C5 witness: the round trip instantiated at comma-bearing numerals. -/
theorem C5_witness : parse_price_range "$1,200 - $3,500".toList = (1200, 3500) :=
  C5_round_trip.1 "$1,200 - $3,500".toList "1,200".toList "3,500".toList
    (by decide) (by decide) (by decide) 1200 3500 (by decide) (by decide)

/-- C6: category matching is first match in table order: when the table
splits as pre, the entry (k, sv), post, with the key k contained in the
lower-cased category or lower-cased name and no key of pre contained there,
the scan selects (k, sv) and the price comes from its size table; and the
item with category palm tree matches the key tree, defined before palm. -/
theorem C6_category_first_match :
    (∀ (it : RequestedItem) (pre : List (List Char × List (List Char × List Char)))
        (k : List Char) (sv : List (List Char × List Char))
        (post : List (List Char × List (List Char × List Char))),
      PRICING_DATABASE = pre ++ (k, sv) :: post →
      catPred it (k, sv) = true →
      (∀ p ∈ pre, catPred it p = false) →
      PRICING_DATABASE.find? (catPred it) = some (k, sv) ∧
        resolve_price it = sizeLookup sv (itemSize it)) ∧
      (PRICING_DATABASE.find?
          (catPred ⟨none, some "palm tree".toList, none, none⟩)).map Prod.fst =
        some "tree".toList := by
  constructor
  · intro it pre k sv post htab hk hpre
    have hfind : PRICING_DATABASE.find? (catPred it) = some (k, sv) := by
      rw [htab]
      exact find?_first hpre hk
    refine ⟨hfind, ?_⟩
    rw [resolve_price, hfind, catFound]
  · decide

/-- C6 witness: the first-match theorem instantiated at the shrub key, whose
single predecessor tree does not match. -/
theorem C6_witness :
    resolve_price ⟨none, some "shrub".toList, none, none⟩ =
      sizeLookup
        [("1-gallon".toList, "$10 - $20".toList),
         ("5-gallon".toList, "$30 - $55".toList)]
        (itemSize ⟨none, some "shrub".toList, none, none⟩) :=
  ((C6_category_first_match.1 ⟨none, some "shrub".toList, none, none⟩
      (PRICING_DATABASE.take 1) "shrub".toList
      [("1-gallon".toList, "$10 - $20".toList),
       ("5-gallon".toList, "$30 - $55".toList)]
      (PRICING_DATABASE.drop 2) (by decide) (by decide) (by decide)).2)

/-- C8: every category of the reference table has at least one size entry,
so the fall-back indexing is always defined: on every input list the budget
is computed without an exception, and every breakdown line carries either
the literal zero price or a price string stored in the table. -/
theorem C8_safety :
    (∀ kv ∈ PRICING_DATABASE, kv.2 ≠ []) ∧
      ∀ items : List RequestedItem, ∃ r, calculate_budget items = some r ∧
        ∀ li ∈ r.breakdown,
          li.unit_price = "$0 - $0".toList ∨
            ∃ kv ∈ PRICING_DATABASE, ∃ sv ∈ kv.2, li.unit_price = sv.2 :=
  ⟨table_sizes_nonempty, calculate_budget_spec⟩

/-- C8 witness: the safety theorem instantiated at a one-item list. -/
theorem C8_witness :
    (calculate_budget [⟨some "Japanese Maple".toList, some "tree".toList,
        some "15-gallon".toList, some 2⟩]).isSome = true := by
  obtain ⟨r, hr, -⟩ := C8_safety.2
    [⟨some "Japanese Maple".toList, some "tree".toList, some "15-gallon".toList, some 2⟩]
  rw [hr]
  rfl

/-- C9: the all-defaults item resolves to name Unknown Item, quantity 1 and
the zero price, because no table key is contained in plant or unknown item:
the budget of the single empty item is exactly zero with the recorded line. -/
theorem C9_default_zero :
    calculate_budget [emptyItem] =
      some ⟨0, 0, [⟨"Unknown Item".toList, 1, "$0 - $0".toList,
        "$0.00 - $0.00".toList⟩]⟩ := by
  have hp : processItem emptyItem = some (0, 0, ⟨itemName emptyItem, 1, "$0 - $0".toList,
      '$' :: formatCents 0 ++ ' ' :: '-' :: ' ' :: '$' :: formatCents 0⟩) :=
    processItem_eval emptyItem "$0 - $0".toList 0 0 1 0 0 0 0 (by decide) (by decide)
      (by decide) (by norm_num) (by norm_num)
      (centsOf_eq _ _ (by norm_num) (by norm_num))
      (centsOf_eq _ _ (by norm_num) (by norm_num))
  rw [calculate_budget_cons _ _ _ _ _ _ hp calculate_budget_nil]
  simp only [Option.some.injEq, BudgetResult.mk.injEq]
  refine ⟨by norm_num, by norm_num, by decide⟩

/-- C10: the two source copies of the price parser are extensionally equal:
the body of parse_price_range in src/servers/budget_calculator_rag.py is the
same text as in src/budget_calculator.py, so the embedded functions agree on
every string. -/
theorem C10_parser_copies_equal (l : List Char) :
    parse_price_range l = parse_price_range_rag l := rfl

/-- C7: doubling the quantity of the item at one position exactly doubles
that line's low and high contributions, shifts the two totals by exactly one
extra copy of that line's contributions, and leaves every breakdown line
before and after the position unchanged. -/
theorem C7_quantity_doubling (pre post : List RequestedItem) (it : RequestedItem)
    (q lo hi : ℚ) (li : LineItem) (r : BudgetResult)
    (hq : it.quantity = some q)
    (hp : processItem it = some (lo, hi, li))
    (hr : calculate_budget (pre ++ it :: post) = some r) :
    ∃ li2 r2,
      processItem { it with quantity := some (2 * q) } = some (2 * lo, 2 * hi, li2) ∧
      calculate_budget (pre ++ { it with quantity := some (2 * q) } :: post) = some r2 ∧
      r2.total_low = r.total_low + lo ∧
      r2.total_high = r.total_high + hi ∧
      r2.breakdown.take pre.length = r.breakdown.take pre.length ∧
      r2.breakdown.drop (pre.length + 1) = r.breakdown.drop (pre.length + 1) ∧
      r2.breakdown.length = r.breakdown.length := by
  obtain ⟨li2, hp2⟩ := processItem_double hq hp
  rw [calculate_budget_append] at hr
  rcases h1 : calculate_budget pre with _ | r1
  · rw [h1] at hr
    simp at hr
  rw [h1, Option.some_bind] at hr
  rcases h2 : calculate_budget (it :: post) with _ | r23
  · rw [h2] at hr
    simp at hr
  rw [h2, Option.map_some'] at hr
  simp only [Option.some.injEq] at hr
  rw [calculate_budget, hp] at h2
  rcases h3 : calculate_budget post with _ | r3
  · rw [h3] at h2
    simp [combineLine] at h2
  rw [h3] at h2
  simp only [combineLine, Option.some.injEq] at h2
  have hlen1 : r1.breakdown.length = pre.length := calculate_budget_length h1
  have hcb2 : calculate_budget (pre ++ { it with quantity := some (2 * q) } :: post) =
      some ⟨r1.total_low + (2 * lo + r3.total_low),
            r1.total_high + (2 * hi + r3.total_high),
            r1.breakdown ++ li2 :: r3.breakdown⟩ := by
    rw [calculate_budget_append, h1, Option.some_bind, calculate_budget, hp2, h3]
    simp [combineLine]
  refine ⟨li2, _, hp2, hcb2, ?_, ?_, ?_, ?_, ?_⟩
  · rw [← hr, ← h2]
    dsimp only
    ring
  · rw [← hr, ← h2]
    dsimp only
    ring
  · rw [← hr, ← h2]
    dsimp only
    rw [List.take_left' hlen1, List.take_left' hlen1]
  · rw [← hr, ← h2]
    dsimp only
    rw [show r1.breakdown ++ li2 :: r3.breakdown =
        (r1.breakdown ++ [li2]) ++ r3.breakdown by simp,
      show r1.breakdown ++ li :: r3.breakdown =
        (r1.breakdown ++ [li]) ++ r3.breakdown by simp,
      List.drop_left' (by simp [hlen1]), List.drop_left' (by simp [hlen1])]
  · rw [← hr, ← h2]
    dsimp only
    simp

/-- C7 witness: the doubling theorem instantiated at a one-item list with
quantity three. -/
theorem C7_witness :
    (calculate_budget
      [{ (⟨none, some "shrub".toList, none, some 3⟩ : RequestedItem) with
          quantity := some (2 * 3) }]).isSome = true := by
  have hp : processItem (⟨none, some "shrub".toList, none, some 3⟩ : RequestedItem) =
      some (30, 60, ⟨itemName ⟨none, some "shrub".toList, none, some 3⟩, 3,
        "$10 - $20".toList,
        '$' :: formatCents 3000 ++ ' ' :: '-' :: ' ' :: '$' :: formatCents 6000⟩) :=
    processItem_eval ⟨none, some "shrub".toList, none, some 3⟩ "$10 - $20".toList
      10 20 3 30 60 3000 6000 (by decide) (by decide) (by decide)
      (by norm_num) (by norm_num)
      (centsOf_eq _ _ (by norm_num) (by norm_num))
      (centsOf_eq _ _ (by norm_num) (by norm_num))
  have hr := calculate_budget_cons (⟨none, some "shrub".toList, none, some 3⟩ :
      RequestedItem) [] 30 60 _ ⟨0, 0, []⟩ hp calculate_budget_nil
  obtain ⟨li2, r2, hp2, hc2, -, -, -, -, -⟩ :=
    C7_quantity_doubling [] [] ⟨none, some "shrub".toList, none, some 3⟩ 3 30 60 _ _
      rfl hp hr
  show (calculate_budget ([] ++
    { (⟨none, some "shrub".toList, none, some 3⟩ : RequestedItem) with
        quantity := some (2 * 3) } :: [])).isSome = true
  rw [hc2]
  rfl
